import Mathlib

set_option maxRecDepth 8192
set_option linter.unnecessarySeqFocus false
set_option linter.unusedVariables false

/-!
Verification development for the K-drive PRO ingestion / enrichment /
aggregation core (the `extractJson` / `generateTravelPlan` pipeline of
`src/geminiService.ts` and the `RequestQueue`, `prefetchAlternatives`,
`parsePrice`, `calculatePointCost` and `calculateTotalCost` functions of the
main application source).  Text is modelled as `List Char`, `JSON.parse` as a
fuel-based recursive-descent parser over the RFC 8259 grammar, and the
JavaScript regular-expression rewrites of `extractJson` as character-list
scans implementing the same leftmost-match replacement semantics.
-/

/-- Whitespace accepted between tokens by `JSON.parse` (RFC 8259). -/
def isJWs (c : Char) : Bool := c == ' ' || c == '\t' || c == '\n' || c == '\r'

/-- Whitespace as matched by the JavaScript regex class `\s` and by
`String.prototype.trim` (restricted to the ASCII whitespace characters that
can actually occur in the texts considered here). -/
def isJsWs (c : Char) : Bool :=
  c == ' ' || c == '\t' || c == '\n' || c == '\r' || c == '\x0b' || c == '\x0c'

/-- Values produced by `JSON.parse`.  A number is kept as a
mantissa/decimal-exponent pair exactly as written in the source text; none of
the claims compares numbers that differ only in floating-point rounding, so no
float semantics is needed. -/
inductive Json where
  | null : Json
  | bool (b : Bool) : Json
  | num (mant : Int) (exp10 : Int) : Json
  | str (s : List Char) : Json
  | arr (elems : List Json) : Json
  | obj (fields : List (List Char × Json)) : Json

mutual

/-- Structural equality test for `Json` values (needed because the nested
inductive blocks automatic `DecidableEq` derivation). -/
def Json.beq : Json → Json → Bool
  | .null, .null => true
  | .bool a, .bool b => a == b
  | .num m e, .num m' e' => m == m' && e == e'
  | .str s, .str t => s == t
  | .arr l, .arr r => Json.beqArr l r
  | .obj l, .obj r => Json.beqObj l r
  | _, _ => false

/-- Elementwise equality of JSON arrays. -/
def Json.beqArr : List Json → List Json → Bool
  | [], [] => true
  | a :: l, b :: r => Json.beq a b && Json.beqArr l r
  | _, _ => false

/-- Elementwise equality of JSON object member lists. -/
def Json.beqObj : List (List Char × Json) → List (List Char × Json) → Bool
  | [], [] => true
  | (k, v) :: l, (k', v') :: r => k == k' && Json.beq v v' && Json.beqObj l r
  | _, _ => false

end

/-- Decimal digits to a natural number, most significant first. -/
def digitsToNat (ds : List Char) : Nat :=
  ds.foldl (fun a c => a * 10 + (c.toNat - '0'.toNat)) 0

/-- Value of a hexadecimal digit, if the character is one (working on the
code point: 48-57 are the digits, 97-102 and 65-70 the two letter ranges). -/
def hexDigitVal (c : Char) : Option Nat :=
  let n := c.toNat
  if 48 ≤ n ∧ n ≤ 57 then some (n - 48)
  else if 97 ≤ n ∧ n ≤ 102 then some (n - 87)
  else if 65 ≤ n ∧ n ≤ 70 then some (n - 55)
  else none

/-- Translation table for the single-character string escapes of JSON
(backspace, form feed and carriage return written by code point). -/
def escCharVal : Char → Option Char
  | '"' => some '"'
  | '\\' => some '\\'
  | '/' => some '/'
  | 'b' => some (Char.ofNat 8)
  | 'f' => some (Char.ofNat 12)
  | 'n' => some '\n'
  | 'r' => some (Char.ofNat 13)
  | 't' => some '\t'
  | _ => none

/-- Body of a JSON string literal, entered just after the opening quote.
Returns the decoded characters and the remaining input after the closing
quote.  Control characters below U+0020 are rejected, as `JSON.parse` does;
`\uXXXX` escapes are decoded with `Char.ofNat` (lone surrogates, which
JavaScript would keep as unpaired UTF-16 units, do not occur in any input
considered here). -/
def parseStrBody : List Char → Option (List Char × List Char)
  | [] => none
  | '"' :: rest => some ([], rest)
  | '\\' :: 'u' :: h1 :: h2 :: h3 :: h4 :: rest =>
    match hexDigitVal h1, hexDigitVal h2, hexDigitVal h3, hexDigitVal h4 with
    | some a, some b, some c, some d =>
      (parseStrBody rest).map
        (fun p => (Char.ofNat (((a * 16 + b) * 16 + c) * 16 + d) :: p.1, p.2))
    | _, _, _, _ => none
  | '\\' :: e :: rest =>
    match escCharVal e with
    | some c => (parseStrBody rest).map (fun p => (c :: p.1, p.2))
    | none => none
  | c :: rest =>
    if c.toNat < 32 then none
    else (parseStrBody rest).map (fun p => (c :: p.1, p.2))

/-- Drop JSON token whitespace. -/
def skipJWs (s : List Char) : List Char := s.dropWhile isJWs

/-- JSON number token, starting at a `-` or a digit.  Implements the RFC 8259
grammar: an integer part without leading zeros, an optional fraction, an
optional exponent.  The value is returned as mantissa and decimal exponent. -/
def parseNumTok (s : List Char) : Option (Json × List Char) :=
  let (neg, s1) := match s with
    | '-' :: r => (true, r)
    | r => (false, r)
  match s1 with
  | [] => none
  | c :: _ =>
    if !c.isDigit then none
    else
      let intDigits := s1.takeWhile Char.isDigit
      let s2 := s1.dropWhile Char.isDigit
      if intDigits.length > 1 && intDigits.headD '0' == '0' then none
      else
        let (fracDigits, s3) := match s2 with
          | '.' :: r =>
            let fd := r.takeWhile Char.isDigit
            (fd, r.dropWhile Char.isDigit)
          | r => ([], r)
        if s2 ≠ s3 ∧ fracDigits = [] then none
        else
          let (expOk, expVal, s4) := match s3 with
            | 'e' :: r | 'E' :: r =>
              let (esign, r1) := match r with
                | '+' :: r2 => ((1 : Int), r2)
                | '-' :: r2 => ((-1 : Int), r2)
                | r2 => ((1 : Int), r2)
              let ed := r1.takeWhile Char.isDigit
              if ed = [] then (false, (0 : Int), r1)
              else (true, esign * (digitsToNat ed : Int), r1.dropWhile Char.isDigit)
            | r => (true, (0 : Int), r)
          if !expOk then none
          else
            let mantNat : Nat := digitsToNat (intDigits ++ fracDigits)
            let mant : Int := if neg then -(mantNat : Int) else (mantNat : Int)
            some (Json.num mant (expVal - (fracDigits.length : Int)), s4)

mutual

/-- One JSON value, preceded by optional whitespace; mirrors the recursive
descent performed by `JSON.parse`.  The fuel argument only forces totality:
`jsonParse` below supplies more fuel than any input can consume. -/
def parseJVal : Nat → List Char → Option (Json × List Char)
  | 0, _ => none
  | fuel + 1, s =>
    match skipJWs s with
    | [] => none
    | 'n' :: 'u' :: 'l' :: 'l' :: r => some (Json.null, r)
    | 't' :: 'r' :: 'u' :: 'e' :: r => some (Json.bool true, r)
    | 'f' :: 'a' :: 'l' :: 's' :: 'e' :: r => some (Json.bool false, r)
    | '"' :: r => (parseStrBody r).map (fun p => (Json.str p.1, p.2))
    | '{' :: r =>
      (match skipJWs r with
       | '}' :: r2 => some (Json.obj [], r2)
       | r2 => (parseJFields fuel r2).map (fun p => (Json.obj p.1, p.2)))
    | '[' :: r =>
      (match skipJWs r with
       | ']' :: r2 => some (Json.arr [], r2)
       | r2 => (parseJElems fuel r2).map (fun p => (Json.arr p.1, p.2)))
    | c :: r =>
      if c == '-' || c.isDigit then parseNumTok (c :: r) else none

/-- One-or-more `"key": value` members of a JSON object, including the
closing brace. -/
def parseJFields : Nat → List Char → Option (List (List Char × Json) × List Char)
  | 0, _ => none
  | fuel + 1, s =>
    match skipJWs s with
    | '"' :: r =>
      match parseStrBody r with
      | none => none
      | some (key, r1) =>
        match skipJWs r1 with
        | ':' :: r2 =>
          match parseJVal fuel r2 with
          | none => none
          | some (v, r3) =>
            match skipJWs r3 with
            | ',' :: r4 => (parseJFields fuel r4).map (fun p => ((key, v) :: p.1, p.2))
            | '}' :: r4 => some ([(key, v)], r4)
            | _ => none
        | _ => none
    | _ => none

/-- One-or-more comma-separated elements of a JSON array, including the
closing bracket. -/
def parseJElems : Nat → List Char → Option (List Json × List Char)
  | 0, _ => none
  | fuel + 1, s =>
    match parseJVal fuel s with
    | none => none
    | some (v, r1) =>
      match skipJWs r1 with
      | ',' :: r2 => (parseJElems fuel r2).map (fun p => (v :: p.1, p.2))
      | ']' :: r2 => some ([v], r2)
      | _ => none

end

/-- Model of `JSON.parse`: parse one value and require that only whitespace
follows it. -/
def jsonParse (s : List Char) : Option Json :=
  match parseJVal (2 * s.length + 8) s with
  | some (v, rest) => if skipJWs rest = [] then some v else none
  | none => none

/-- Model of `String.prototype.trim`. -/
def jsTrim (s : List Char) : List Char :=
  ((s.dropWhile isJsWs).reverse.dropWhile isJsWs).reverse

/-- Backtick character (written via its code point so that the source file
contains no literal backtick). -/
def btick : Char := Char.ofNat 96

/-- Whether a character list starts with two backticks. -/
def startsBB : List Char → Bool
  | a :: b :: _ => a == btick && b == btick
  | _ => false

/-- Whether a character list contains a run of three backticks anywhere. -/
def hasFence : List Char → Bool
  | [] => false
  | c :: r => (c == btick && startsBB r) || hasFence r

/-- Characters of a fenced block's interior: everything up to the next run of
three backticks, or `none` if no closing fence exists (the lazy group
`([\s\S]*?)` of the fence regex). -/
def fenceInterior : List Char → Option (List Char)
  | [] => none
  | c :: r =>
    if c == btick && startsBB r then some []
    else (fenceInterior r).map (c :: ·)

/-- After an opening fence: consume an optional literal `json` tag and the
greedy `\s*`, then take the interior up to the closing fence. -/
def fenceAfterOpen (r : List Char) : Option (List Char) :=
  let r1 := match r with
    | 'j' :: 's' :: 'o' :: 'n' :: rest => rest
    | rest => rest
  fenceInterior (r1.dropWhile isJsWs)

/-- First match of the fence regex: scan for an opening run of three
backticks that is followed, possibly after a `json` tag and whitespace, by a
closing run; like the JavaScript engine, an opening run without a closing one
is skipped and the scan resumes one character later. -/
def fenceScan : List Char → Option (List Char)
  | [] => none
  | c :: r =>
    if c == btick && startsBB r then
      match fenceAfterOpen (r.drop 2) with
      | some inner => some inner
      | none => fenceScan r
    else fenceScan r

/-- Whether a character list starts with a slash. -/
def headSlash : List Char → Bool
  | c :: _ => c == '/'
  | _ => false

/-- Comment removal step: the global multiline replacement of
`(^|[^:])\/\/.*$` by its first group.  Scanning left to right, the first `//`
of a line that is not immediately preceded by a colon starts a comment that
runs to the end of the line; `pc` records whether the previous character was
a colon (`false` at the start of the text and after a newline, since a
newline is not a colon), and `skipping` records that the cursor is inside a
matched comment that is being discarded. -/
def stripCore (pc skipping : Bool) : List Char → List Char
  | [] => []
  | c :: r =>
    if skipping then
      if c == '\n' then '\n' :: stripCore false false r
      else stripCore pc true r
    else if c == '/' && headSlash r && !pc then stripCore pc true r
    else c :: stripCore (c == ':') false r

/-- Comment removal entry point (start of text behaves like a line start). -/
def stripLineComments (s : List Char) : List Char := stripCore false false s

/-- Colon-guard check: `true` when every `//` in the text is immediately
preceded by a colon (so that the comment-removal regex has no match). -/
def colonGuarded (pc : Bool) : List Char → Bool
  | [] => true
  | c :: r =>
    if c == '/' && headSlash r && !pc then false
    else colonGuarded (c == ':') r

/-- Whether a character is an opening brace or bracket. -/
def isOpenBr (c : Char) : Bool := c == '{' || c == '['

/-- Step 3 of `extractJson`: drop everything before the first `{` or `[`, but
keep the text unchanged when neither occurs (`search` returning `-1`). -/
def locateOpen (s : List Char) : List Char :=
  if s.any isOpenBr then s.dropWhile (fun c => !isOpenBr c) else s

/-- State of the structural repair scan of `extractJson`: the stack of
expected closers (top first), whether the cursor is inside a string literal,
and whether the previous character was an unconsumed escape. -/
structure RScan where
  stack : List Char
  inString : Bool
  escaped : Bool

/-- One character of the repair scan, translated clause by clause from the
loop body in `extractJson` (the `lastValidCharIndex` variable of the source
is computed there but never used, so it is omitted). -/
def rstep (st : RScan) (c : Char) : RScan :=
  if st.escaped then { st with escaped := false }
  else if c == '\\' then { st with escaped := true }
  else
    let st1 := if c == '"' then { st with inString := !st.inString } else st
    if st1.inString then st1
    else if c == '{' then { st1 with stack := '}' :: st1.stack }
    else if c == '[' then { st1 with stack := ']' :: st1.stack }
    else if c == '}' || c == ']' then
      match st1.stack with
      | top :: rest => if top == c then { st1 with stack := rest } else st1
      | [] => st1
    else st1

/-- Whole-text repair scan. -/
def repairScan (s : List Char) : RScan := s.foldl rstep ⟨[], false, false⟩

/-- Replacement of `,\s*$` by the empty string: if the last
non-whitespace character is a comma, remove it together with the whitespace
after it. -/
def stripTrailComma (s : List Char) : List Char :=
  match s.reverse.dropWhile isJsWs with
  | c :: r => if c == ',' then r.reverse else s
  | [] => s

/-- Single left-to-right pass of the global replacement of `,\s*([\}\]])` by
the closer: a comma followed by whitespace and a closing brace or bracket is
replaced by the closer alone, and like a global regex replacement the scan
resumes after the match, so newly adjacent commas are not reconsidered.
`buf` holds (reversed) a pending comma and the whitespace seen after it,
emitted unchanged when the run turns out not to end in a closer. -/
def cccAux (buf : List Char) : List Char → List Char
  | [] => buf.reverse
  | c :: r =>
    if buf.isEmpty then
      if c == ',' then cccAux [c] r
      else c :: cccAux [] r
    else
      if isJsWs c then cccAux (c :: buf) r
      else if c == '}' || c == ']' then c :: cccAux [] r
      else buf.reverse ++ (if c == ',' then cccAux [c] r else c :: cccAux [] r)

/-- Entry point of the dangling-comma cleanup. -/
def cleanCommaClosers (s : List Char) : List Char := cccAux [] s

/-- Model of `extractJson` (src/geminiService.ts, lines 69-156): trim, strip
one fenced code block (only when its interior is non-empty, mirroring the
truthiness test on the capture group), remove line comments, drop any prose
before the first `{` or `[`, try a direct parse, and otherwise run the
structural repair (close an open string, strip one trailing comma, append the
pending closers innermost-first, delete commas left dangling before closers)
and parse again.  `none` models the thrown `Error`. -/
def extractJson (text : List Char) : Option Json :=
  let s0 := jsTrim text
  let s1 := match fenceScan s0 with
    | some inner => if inner.isEmpty then s0 else jsTrim inner
    | none => s0
  let s2 := stripLineComments s1
  let s3 := locateOpen s2
  match jsonParse s3 with
  | some v => some v
  | none =>
    let st := repairScan s3
    let s4 := if st.inString then s3 ++ ['"'] else s3
    let s5 := stripTrailComma s4
    let s6 := s5 ++ st.stack
    let s7 := cleanCommaClosers s6
    jsonParse s7

/-- Category tag of an itinerary point (the closed set of `LocationPoint.type`
in the source's type declarations; `start` and `end` are renamed to avoid the
Lean keywords). -/
inductive PType where
  | attraction : PType
  | restaurant : PType
  | parking : PType
  | hotel : PType
  | startPt : PType
  | endPt : PType
deriving DecidableEq

/-- Itinerary point (`LocationPoint` of the source).  Only the fields the
verified functions read are carried; optional strings are `Option (List Char)`
with `some []` playing the role of an empty (falsy) string, and the
asynchronously filled `alternatives : any[]` is a list of raw `Json` values. -/
structure LocationPoint where
  name : List Char
  ptype : PType
  ticket_price : Option (List Char)
  average_cost : Option (List Char)
  descr : List Char
  rating : Int
  alternatives : Option (List Json)

/-- One day of the itinerary (`DayItinerary` of the source). -/
structure DayItinerary where
  day : Nat
  transportation_cost : Option (List Char)
  points : List LocationPoint

/-- The plan aggregate (`TravelPlan` of the source; only the fields the
verified functions read are carried). -/
structure TravelPlan where
  title : List Char
  durationDays : Nat
  travelers : Nat
  days : List DayItinerary

/-- Model of `parsePrice`: the regex `(\d+)` finds the first maximal run of
decimal digits, `parseInt` turns it into a number; no digits yields 0. -/
def parsePrice (s : List Char) : Nat :=
  match s.dropWhile (fun c => !c.isDigit) with
  | [] => 0
  | ds => digitsToNat (ds.takeWhile Char.isDigit)

/-- Whether the string contains the free-of-charge marker 免费 (the
`includes("免费")` test of the source). -/
def hasFreeMark : List Char → Bool
  | [] => false
  | c :: r => (c == '免' && (match r with | c2 :: _ => c2 == '费' | [] => false)) || hasFreeMark r

/-- Model of `calculatePointCost`.  Clause by clause from the source: a
non-empty ticket-price string without the free marker contributes its price
once per traveler; a non-empty average-cost string without the free marker
contributes per room (`ceil(travelers / 2)`, which is `(travelers + 1) / 2`)
for hotels and per traveler otherwise; a parking point with a non-empty
ticket-price string additionally contributes that price once flat. -/
def calculatePointCost (pt : LocationPoint) (travelers : Nat) : Nat :=
  let c1 := match pt.ticket_price with
    | some s => if !s.isEmpty && !hasFreeMark s then parsePrice s * travelers else 0
    | none => 0
  let c2 := match pt.average_cost with
    | some s =>
      if !s.isEmpty && !hasFreeMark s then
        match pt.ptype with
        | PType.hotel => parsePrice s * ((travelers + 1) / 2)
        | PType.restaurant => parsePrice s * travelers
        | _ => parsePrice s * travelers
      else 0
    | none => 0
  let c3 := match pt.ptype, pt.ticket_price with
    | PType.parking, some s => if !s.isEmpty then parsePrice s else 0
    | _, _ => 0
  c1 + c2 + c3

/-- Cost summary record returned by `calculateTotalCost`. -/
structure CostBuckets where
  total : Nat
  transport : Nat
  accom : Nat
  dining : Nat
  tickets : Nat
deriving DecidableEq

/-- One point's contribution inside `calculateTotalCost`: the cost is always
added to the grand total, and to one bucket selected by category — hotels to
accommodation, restaurants to dining, attractions to tickets, parking to
transport; `start` and `end` points fall through the `else if` chain and
reach no bucket. -/
def addPointCost (travelers : Nat) (acc : CostBuckets) (pt : LocationPoint) : CostBuckets :=
  let c := calculatePointCost pt travelers
  let acc1 := { acc with total := acc.total + c }
  match pt.ptype with
  | PType.hotel => { acc1 with accom := acc1.accom + c }
  | PType.restaurant => { acc1 with dining := acc1.dining + c }
  | PType.attraction => { acc1 with tickets := acc1.tickets + c }
  | PType.parking => { acc1 with transport := acc1.transport + c }
  | _ => acc1

/-- One day's contribution inside `calculateTotalCost`: a truthy (non-empty)
transportation-cost string is parsed and added to both the total and the
transport bucket, then every point is folded in. -/
def addDayCost (travelers : Nat) (acc : CostBuckets) (d : DayItinerary) : CostBuckets :=
  let acc1 := match d.transportation_cost with
    | some s =>
      if !s.isEmpty then
        { acc with total := acc.total + parsePrice s,
                   transport := acc.transport + parsePrice s }
      else acc
    | none => acc
  d.points.foldl (addPointCost travelers) acc1

/-- Model of `calculateTotalCost`. -/
def calculateTotalCost (p : TravelPlan) : CostBuckets :=
  p.days.foldl (addDayCost p.travelers) ⟨0, 0, 0, 0, 0⟩

/-- Whether a point is one of the route-endpoint categories that the bucket
`else if` chain of `calculateTotalCost` never reaches. -/
def isEndpointType : PType → Bool
  | PType.startPt => true
  | PType.endPt => true
  | _ => false

/-- Total cost of the `start`/`end` points of a plan, which
`calculateTotalCost` counts in the grand total but in no bucket. -/
def endpointCost (p : TravelPlan) : Nat :=
  (p.days.map (fun d =>
    ((d.points.filter (fun pt => isEndpointType pt.ptype)).map
      (fun pt => calculatePointCost pt p.travelers)).sum)).sum

/-- Container frame used by the truncation-point classifier: an array, or an
object together with whether the next string to open would be a member key. -/
inductive CutFrame where
  | arrF : CutFrame
  | objF (expectKey : Bool) : CutFrame

/-- State of the truncation-point classifier: whether the cursor is inside a
string literal, whether the previous character was an unconsumed escape,
whether the currently open string started as an object key, and the stack of
open containers. -/
structure CutSt where
  inString : Bool
  escaped : Bool
  isKey : Bool
  frames : List CutFrame

/-- One character of the truncation-point classifier, which replays the
standard JSON structure of a document prefix: quotes toggle string state,
escapes are consumed, braces and brackets push and pop frames, and inside an
object a colon switches from key to value position while a comma switches
back. -/
def cutStep (st : CutSt) (c : Char) : CutSt :=
  if st.inString then
    if st.escaped then { st with escaped := false }
    else if c == '\\' then { st with escaped := true }
    else if c == '"' then { st with inString := false, isKey := false }
    else st
  else if c == '"' then
    { st with inString := true,
              isKey := match st.frames with
                | CutFrame.objF true :: _ => true
                | _ => false }
  else if c == '{' then { st with frames := CutFrame.objF true :: st.frames }
  else if c == '[' then { st with frames := CutFrame.arrF :: st.frames }
  else if c == '}' || c == ']' then
    { st with frames := st.frames.tail }
  else if c == ':' then
    { st with frames := match st.frames with
        | CutFrame.objF _ :: r => CutFrame.objF false :: r
        | fs => fs }
  else if c == ',' then
    { st with frames := match st.frames with
        | CutFrame.objF _ :: r => CutFrame.objF true :: r
        | fs => fs }
  else st

/-- Classifier for truncation points of a JSON document: position `k` of
`doc` is a string-value cut when, after replaying the first `k` characters,
the cursor sits strictly inside a string literal that is not an object key
and the last character was not an unconsumed escape. -/
def strValueCut (doc : List Char) (k : Nat) : Bool :=
  let st := (doc.take k).foldl cutStep ⟨false, false, false, []⟩
  st.inString && !st.escaped && !st.isKey

/-- Parameters of `generateTravelPlan` that its returned record reads (the
remaining request fields are spread into the record unchanged and are not
involved in any claim). -/
structure GenParams where
  startName : List Char
  endName : List Char
  days : Nat
  travelers : Nat

/-- JavaScript truthiness of a parsed JSON value (`false`, `null`, `0` and
the empty string are falsy; every array and object is truthy). -/
def jsTruthy : Json → Bool
  | Json.null => false
  | Json.bool b => b
  | Json.num m _ => !(m == 0)
  | Json.str s => !s.isEmpty
  | Json.arr _ => true
  | Json.obj _ => true

/-- Member access `j.key` on a parsed value: on an object the value of the
last member with that name (later duplicates overwrite earlier ones in a
JavaScript object), `undefined` (`none`) otherwise. -/
def jsField (j : Json) (key : List Char) : Option Json :=
  match j with
  | Json.obj fs => (fs.reverse.find? (fun f => f.1 == key)).map Prod.snd
  | _ => none

/-- The `x || d` default idiom applied to an optional field access. -/
def jsOrElse (v : Option Json) (d : Json) : Json :=
  match v with
  | some x => if jsTruthy x then x else d
  | none => d

/-- Fields of the record returned by `generateTravelPlan` that the claims
inspect.  `daysData` carries the raw parsed `data.days` value, because the
source assigns it without any decoding. -/
structure GenResult where
  title : Json
  durationDays : Nat
  daysData : Json
  travelers : Nat

/-- Model of the record construction at the end of `generateTravelPlan`
(src/geminiService.ts, lines 256-266): the title falls back to a string
derived from the route endpoints, `durationDays` is the `days` request
parameter, and `days` is the parsed reply's `days` field or `[]`. -/
def generateTravelPlanResult (params : GenParams) (data : Json) : GenResult :=
  { title := jsOrElse (jsField data ("title".toList))
      (Json.str (params.startName ++ (" - ".toList) ++ params.endName ++ (" 深度自驾".toList)))
  , durationDays := params.days
  , daysData := jsOrElse (jsField data ("days".toList)) (Json.arr [])
  , travelers := params.travelers }

/-- Length of a parsed JSON array, if the value is one. -/
def jsonArrLen : Json → Option Nat
  | Json.arr l => some l.length
  | _ => none

/-- Point stored at a `(day-index, point-index)` coordinate of a plan. -/
def getPt (p : TravelPlan) (d i : Nat) : Option LocationPoint :=
  (p.days[d]?).bind (fun day => day.points[i]?)

/-- Model of the merge step of `prefetchAlternatives` (main application
source, lines 409-418): re-read the latest plan, copy the days list, and if
the coordinate still exists replace that point's `alternatives` with the
fetched list, leaving every other field and point untouched; if the
coordinate is gone the returned plan has the same value as the previous
one. -/
def mergeAlternatives (p : TravelPlan) (d i : Nat) (alts : List Json) : TravelPlan :=
  match p.days[d]? with
  | none => p
  | some day =>
    match day.points[i]? with
    | none => p
    | some pt =>
      let newPt := { pt with alternatives := some alts }
      let newDay := { day with points := day.points.set i newPt }
      { p with days := p.days.set d newDay }

/-- Result of applying a batch of enrichment merges in the order given. -/
def applyMerges (p : TravelPlan) (l : List ((Nat × Nat) × List Json)) : TravelPlan :=
  l.foldl (fun q e => mergeAlternatives q e.1.1 e.1.2 e.2) p

/-- Configuration of the `RequestQueue`.  Tasks are identified by the order
of submission (`nextId` counts submissions); `pending` is the waiting queue,
`running` the tasks currently started and not yet completed (so
`running.length` is the source's `activeCount`), and `finished` records each
completed task together with whether its body succeeded (`true`) or threw
(`false`). -/
structure QConf where
  nextId : Nat
  pending : List Nat
  running : List Nat
  finished : List (Nat × Bool)
deriving DecidableEq

/-- The concurrency ceiling (`maxConcurrent = 2` in the source). -/
def maxConcurrent : Nat := 2

/-- One call of the private `process` method: return unless a slot is free
and the queue is non-empty, otherwise start the queue's head.  A single call
starts at most one task, exactly like the source, where `process` increments
`activeCount`, shifts one task and starts it. -/
def procOnce (s : QConf) : QConf :=
  if maxConcurrent ≤ s.running.length then s
  else
    match s.pending with
    | [] => s
    | t :: rest => { s with pending := rest, running := s.running ++ [t] }

/-- Model of `RequestQueue.add`: push the task and call `process` once. -/
def addTask (s : QConf) : QConf :=
  procOnce { s with pending := s.pending ++ [s.nextId], nextId := s.nextId + 1 }

/-- Completion of a running task: the `finally` block decrements
`activeCount` (the task leaves `running`) and calls `process` once.  The
`ok` flag records whether the awaited body succeeded or threw; the `catch`
block swallows the error either way, so the queue bookkeeping is the same. -/
def completeTask (s : QConf) (t : Nat) (ok : Bool) : QConf :=
  procOnce { s with running := s.running.erase t, finished := s.finished ++ [(t, ok)] }

/-- Events observable on the queue: a submission, or the completion (with
either outcome) of some currently running task.  Completions may occur in
any order, modelling arbitrary external latency. -/
inductive QStep : QConf → QConf → Prop
  | add (s : QConf) : QStep s (addTask s)
  | complete (s : QConf) (t : Nat) (ok : Bool) (h : t ∈ s.running) :
      QStep s (completeTask s t ok)

/-- The queue at module load: nothing submitted, nothing running. -/
def qInit : QConf := ⟨0, [], [], []⟩

/-- States reachable from the initial queue by any event sequence. -/
def QReachable (s : QConf) : Prop := Relation.ReflTransGen QStep qInit s

/-- Invariant of the queue: at most `maxConcurrent` tasks run; a non-empty
waiting queue forces a full complement of running tasks (otherwise `process`
would already have started one); the waiting queue holds exactly the most
recently submitted ids, consecutively; and the started tasks — running or
finished — are exactly the earlier ids, each exactly once. -/
def QInv (s : QConf) : Prop :=
  ∃ a n, s.pending = List.range' a n ∧
    s.nextId = a + n ∧
    s.running.length ≤ maxConcurrent ∧
    (s.pending ≠ [] → s.running.length = maxConcurrent) ∧
    ((s.running : Multiset Nat) + (s.finished.map Prod.fst : Multiset Nat) =
      (List.range a : Multiset Nat))

/-- Parking point of spec §8: ticket price "¥20" and no average cost. -/
def c1ParkPt : LocationPoint :=
  { name := "P".toList, ptype := PType.parking, ticket_price := some ("¥20".toList),
    average_cost := none, descr := [], rating := 5, alternatives := none }

/-- Start-category point with a ticket price, used to separate the grand
total from the four buckets. -/
def c9StartPt : LocationPoint :=
  { name := "S".toList, ptype := PType.startPt, ticket_price := some ("¥10".toList),
    average_cost := none, descr := [], rating := 5, alternatives := none }

/-- One-day plan whose only point is a costed `start` point. -/
def c9Plan : TravelPlan :=
  { title := [], durationDays := 1, travelers := 1,
    days := [{ day := 1, transportation_cost := none, points := [c9StartPt] }] }

/-- Sum of the four category buckets. -/
def bucketSum (b : CostBuckets) : Nat := b.transport + b.accom + b.dining + b.tickets

/-- Cost of the endpoint-category points of one day's point list. -/
def ptsEndCost (travelers : Nat) (pts : List LocationPoint) : Nat :=
  ((pts.filter (fun pt => isEndpointType pt.ptype)).map
    (fun pt => calculatePointCost pt travelers)).sum

/-- Request parameters used in the C7 counterexample: one day requested. -/
def c7Params : GenParams :=
  { startName := "上海".toList, endName := "杭州".toList, days := 1, travelers := 2 }

/-- Parsed reply used in the C7 counterexample: a `days` array of length 2. -/
def c7Data : Json :=
  Json.obj [("days".toList, Json.arr [Json.obj [], Json.obj []])]

/-- Two-point plan used to witness the merge-race theorem. -/
def c8Plan : TravelPlan :=
  { title := "t".toList, durationDays := 1, travelers := 2,
    days := [{ day := 1, transportation_cost := none,
               points := [c1ParkPt, c9StartPt] }] }

/-- Merge batch used to witness the merge-race theorem, applied in reversed
submission order. -/
def c8Batch : List ((Nat × Nat) × List Json) :=
  [((0, 1), [Json.bool false]), ((0, 0), [Json.bool true])]

/-- Whether the first character opens a JSON container. -/
def headIsOpen : List Char → Bool
  | c :: _ => isOpenBr c
  | [] => false

/-- String stored in the first member of a parsed object, when that member's
value is a string; used to tell two parses apart. -/
def firstFieldStr : Json → List Char
  | Json.obj ((_, Json.str s) :: _) => s
  | _ => []

/-- Input of the C2 counterexample: a valid JSON document whose only string
value contains `//`. -/
def c2Input : List Char := "\x7b\"a\":\"b//c\"\x7d".toList

/-- Input of the C3 counterexample: a valid JSON document with `//` inside a
string value, preceded by a space. -/
def c3Input : List Char := "\x7b\"u\": \"x //y\"\x7d".toList

/-- URL-bearing input witnessing the colon guard of the comment stripper. -/
def c3UrlInput : List Char := "\x7b\"u\":\"http://a\"\x7d".toList

/-- Well-formed input witnessing the direct-parse fast path. -/
def c2WitInput : List Char := "\x7b\"k\":1\x7d".toList

/-- Valid document truncated after its object key in the C4 counterexample. -/
def c4Doc : List Char := "\x7b\"a\":1\x7d".toList

/-- Valid nested document over which every string-value truncation point is
checked in the amended C4 theorem. -/
def c4NestedDoc : List Char := "\x7b\"t\":\"ab\",\"ds\":[\x7b\"p\":\"xy\"\x7d,\x7b\"q\":\"z\"\x7d]\x7d".toList

/-- Queue state used to witness the failure-isolation theorem: three tasks
submitted, tasks 0 and 1 running, task 2 waiting. -/
def c6State : QConf := ⟨3, [2], [0, 1], []⟩

theorem addPointCost_keeps_diff (T : Nat) (acc : CostBuckets) (pt : LocationPoint) (c : Nat)
    (h : acc.total = bucketSum acc + c) :
    (addPointCost T acc pt).total =
      bucketSum (addPointCost T acc pt) +
        (c + (if isEndpointType pt.ptype then calculatePointCost pt T else 0)) := by
  cases hpt : pt.ptype <;>
    simp [addPointCost, bucketSum, hpt, isEndpointType] at h ⊢ <;> omega

theorem foldPoints_keeps_diff (T : Nat) (pts : List LocationPoint) :
    ∀ (acc : CostBuckets) (c : Nat), acc.total = bucketSum acc + c →
      (pts.foldl (addPointCost T) acc).total =
        bucketSum (pts.foldl (addPointCost T) acc) + (c + ptsEndCost T pts) := by
  induction pts with
  | nil => intro acc c h; simpa [ptsEndCost] using h
  | cons pt pts ih =>
    intro acc c h
    have h1 := addPointCost_keeps_diff T acc pt c h
    have h2 := ih (addPointCost T acc pt)
      (c + (if isEndpointType pt.ptype then calculatePointCost pt T else 0)) h1
    simp only [List.foldl_cons]
    rw [h2]
    by_cases he : isEndpointType pt.ptype <;>
      simp [ptsEndCost, he] <;> omega

theorem addDayCost_keeps_diff (T : Nat) (acc : CostBuckets) (d : DayItinerary) (c : Nat)
    (h : acc.total = bucketSum acc + c) :
    (addDayCost T acc d).total =
      bucketSum (addDayCost T acc d) + (c + ptsEndCost T d.points) := by
  have h1 : ∀ acc1 : CostBuckets, acc1.total = bucketSum acc1 + c →
      (d.points.foldl (addPointCost T) acc1).total =
        bucketSum (d.points.foldl (addPointCost T) acc1) + (c + ptsEndCost T d.points) :=
    fun acc1 hh => foldPoints_keeps_diff T d.points acc1 c hh
  unfold addDayCost
  cases hd : d.transportation_cost with
  | none => exact h1 acc h
  | some s =>
    by_cases hs : s.isEmpty
    · simp only [hs]
      exact h1 acc (by simpa using h)
    · simp only [hs]
      refine h1 _ ?_
      simp only [Bool.not_true, Bool.false_eq_true, if_false, bucketSum] at h ⊢
      simp [bucketSum] at h ⊢
      omega

theorem foldDays_keeps_diff (T : Nat) (ds : List DayItinerary) :
    ∀ (acc : CostBuckets) (c : Nat), acc.total = bucketSum acc + c →
      (ds.foldl (addDayCost T) acc).total =
        bucketSum (ds.foldl (addDayCost T) acc) +
          (c + (ds.map (fun d => ptsEndCost T d.points)).sum) := by
  induction ds with
  | nil => intro acc c h; simpa using h
  | cons d ds ih =>
    intro acc c h
    have h1 := addDayCost_keeps_diff T acc d c h
    have h2 := ih (addDayCost T acc d) (c + ptsEndCost T d.points) h1
    simp only [List.foldl_cons]
    rw [h2]
    simp
    omega

/-- C9, counterexample: in the plan `c9Plan`, whose single point has category
`start` and ticket price "¥10", the grand total of `calculateTotalCost` is 10
while the four buckets are all 0, so the total is not the sum of the buckets
for every category of the closed set. -/
theorem c9_counterexample :
    (calculateTotalCost c9Plan).total ≠
      (calculateTotalCost c9Plan).transport + (calculateTotalCost c9Plan).accom +
        (calculateTotalCost c9Plan).dining + (calculateTotalCost c9Plan).tickets := by
  decide

/-- C9, amended: for every plan, the grand total of `calculateTotalCost`
equals the sum of the four buckets plus the costs of the `start`/`end`
points, which are counted in the total but assigned to no bucket; the claimed
equality `total = transport + accommodation + dining + tickets` holds exactly
when those endpoint points contribute nothing. -/
theorem c9_total_eq_buckets_plus_endpoints (p : TravelPlan) :
    (calculateTotalCost p).total =
      (calculateTotalCost p).transport + (calculateTotalCost p).accom +
        (calculateTotalCost p).dining + (calculateTotalCost p).tickets +
        endpointCost p := by
  have h := foldDays_keeps_diff p.travelers p.days ⟨0, 0, 0, 0, 0⟩ 0 (by simp [bucketSum])
  unfold calculateTotalCost endpointCost
  simp only [bucketSum, ptsEndCost] at h
  rw [h]
  omega

/-- C1, counterexample: the parking point with ticket price "¥20" and no
average cost contributes 40 for a single traveler — the ticket-price rule
charges it per traveler and the parking rule adds it again — so its
contribution is not the flat 20 the claim states, already at `T = 1`, and it
does depend on the traveler count. -/
theorem c1_counterexample :
    calculatePointCost c1ParkPt 1 ≠ 20 ∧
      calculatePointCost c1ParkPt 2 ≠ calculatePointCost c1ParkPt 1 := by
  constructor <;> decide

/-- C1, amended: for every traveler count `T`, a parking point whose ticket
price is "¥20" and which has no average cost contributes `20 * T + 20` to the
per-point cost: the ticket price is charged once per traveler by the general
ticket rule and once more as a flat per-vehicle parking fee, so only the
second summand is independent of `T`. -/
theorem c1_parking_cost (T : Nat) : calculatePointCost c1ParkPt T = 20 * T + 20 := by
  simp [calculatePointCost, c1ParkPt, parsePrice, hasFreeMark, digitsToNat]

/-- C7, counterexample: when the parsed reply carries a `days` array of
length 2 but one day was requested, the record built by `generateTravelPlan`
has `durationDays = 1` while its days list has 2 entries, so the invariant
`durationDays` = number of days fails exactly in the situation the claim
includes. -/
theorem c7_counterexample :
    (generateTravelPlanResult c7Params c7Data).durationDays = 1 ∧
      jsonArrLen (generateTravelPlanResult c7Params c7Data).daysData = some 2 ∧
      (1 : Nat) ≠ 2 := by
  refine ⟨rfl, rfl, by decide⟩

/-- C7, amended: the record built by `generateTravelPlan` always carries the
requested `days` parameter as `durationDays`, independent of the parsed
reply, and a reply without a `days` field defaults the days list to the empty
array; the invariant `durationDays` = number of days therefore holds only
when the model reply happens to contain exactly the requested number of
days. -/
theorem c7_duration_from_request (params : GenParams) (data : Json)
    (hnone : jsField data ("days".toList) = none) :
    (generateTravelPlanResult params data).durationDays = params.days ∧
      (generateTravelPlanResult params data).daysData = Json.arr [] := by
  refine ⟨rfl, ?_⟩
  have h2 : (generateTravelPlanResult params data).daysData =
      jsOrElse (jsField data ("days".toList)) (Json.arr []) := rfl
  rw [h2, hnone]
  rfl

/-- Witness for `c7_duration_from_request` at a reply with no `days` field. -/
theorem c7_duration_from_request_witness :
    (generateTravelPlanResult c7Params (Json.obj [])).durationDays = 1 ∧
      (generateTravelPlanResult c7Params (Json.obj [])).daysData = Json.arr [] :=
  c7_duration_from_request c7Params (Json.obj []) (by rfl)

/-- C10: when the latest plan no longer contains the task's coordinate — the
day index or the point index now falls outside the lists — the merge step of
`prefetchAlternatives` returns a plan equal to the previous one, touching no
point and raising no error. -/
theorem c10_missing_coordinate (p : TravelPlan) (d i : Nat) (alts : List Json)
    (h : getPt p d i = none) :
    mergeAlternatives p d i alts = p := by
  unfold mergeAlternatives
  unfold getPt at h
  cases hd : p.days[d]? with
  | none => rfl
  | some day =>
    rw [hd] at h
    simp only [Option.some_bind] at h
    simp only [h]

/-- Witness for `c10_missing_coordinate`: merging into day 5 of the one-day
plan `c9Plan` leaves the plan value unchanged. -/
theorem c10_missing_coordinate_witness :
    mergeAlternatives c9Plan 5 0 [Json.null] = c9Plan :=
  c10_missing_coordinate c9Plan 5 0 [Json.null] (by rfl)

theorem list_set_get_self {α : Type} (l : List α) (i : Nat) (x : α) (h : i < l.length) :
    (l.set i x)[i]? = some x := by
  induction l generalizing i with
  | nil => simp at h
  | cons a as ih =>
    cases i with
    | zero => simp
    | succ j =>
      simp only [List.set_cons_succ, List.getElem?_cons_succ]
      exact ih j (by simpa using h)

theorem list_set_get_ne {α : Type} (l : List α) (i j : Nat) (x : α) (h : i ≠ j) :
    (l.set i x)[j]? = l[j]? := by
  induction l generalizing i j with
  | nil => simp
  | cons a as ih =>
    cases i with
    | zero =>
      cases j with
      | zero => exact absurd rfl h
      | succ k => simp
    | succ i' =>
      cases j with
      | zero => simp
      | succ k =>
        simp only [List.set_cons_succ, List.getElem?_cons_succ]
        exact ih i' k (fun hh => h (by rw [hh]))

/-- Effect of one merge at its own coordinate: when the coordinate exists,
exactly the `alternatives` field of that point is replaced. -/
theorem mergeAlternatives_hit (p : TravelPlan) (d i : Nat) (alts : List Json)
    (pt : LocationPoint) (h : getPt p d i = some pt) :
    getPt (mergeAlternatives p d i alts) d i = some { pt with alternatives := some alts } := by
  unfold getPt at h
  cases hd : p.days[d]? with
  | none => rw [hd] at h; simp at h
  | some day =>
    rw [hd] at h
    simp only [Option.some_bind] at h
    have hdlen : d < p.days.length := by
      by_contra hlen
      rw [List.getElem?_eq_none (by omega)] at hd
      exact Option.noConfusion hd
    have hilen : i < day.points.length := by
      by_contra hlen
      rw [List.getElem?_eq_none (by omega)] at h
      exact Option.noConfusion h
    simp only [mergeAlternatives, hd, h]
    unfold getPt
    simp only [list_set_get_self p.days d _ hdlen, Option.some_bind]
    simp only [list_set_get_self day.points i _ hilen]

/-- Frame property of one merge: any other coordinate is untouched. -/
theorem mergeAlternatives_frame (p : TravelPlan) (d i d' i' : Nat) (alts : List Json)
    (h : (d, i) ≠ (d', i')) :
    getPt (mergeAlternatives p d i alts) d' i' = getPt p d' i' := by
  cases hd : p.days[d]? with
  | none => simp only [mergeAlternatives, hd]
  | some day =>
    cases hi : day.points[i]? with
    | none => simp only [mergeAlternatives, hd, hi]
    | some pt =>
      simp only [mergeAlternatives, hd, hi]
      unfold getPt
      by_cases hdd : d = d'
      · subst hdd
        have hii : i ≠ i' := fun he => h (by rw [he])
        have hdlen : d < p.days.length := by
          by_contra hlen
          rw [List.getElem?_eq_none (by omega)] at hd
          exact Option.noConfusion hd
        simp only [list_set_get_self p.days d _ hdlen, Option.some_bind]
        rw [hd, Option.some_bind]
        exact list_set_get_ne day.points i i' _ hii
      · rw [list_set_get_ne p.days d d' _ hdd]

/-- Frame property of a merge batch: a coordinate touched by no merge of the
batch is untouched by the whole batch. -/
theorem applyMerges_frame (l : List ((Nat × Nat) × List Json)) :
    ∀ (p : TravelPlan) (c : Nat × Nat), (∀ e ∈ l, e.1 ≠ c) →
      getPt (applyMerges p l) c.1 c.2 = getPt p c.1 c.2 := by
  induction l with
  | nil => intro p c h; rfl
  | cons x xs ih =>
    intro p c h
    have hx : x.1 ≠ c := h x (List.mem_cons_self x xs)
    have h1 : getPt (mergeAlternatives p x.1.1 x.1.2 x.2) c.1 c.2 = getPt p c.1 c.2 :=
      mergeAlternatives_frame p x.1.1 x.1.2 c.1 c.2 x.2 (by
        intro he
        exact hx (by
          have : (x.1.1, x.1.2) = x.1 := rfl
          rw [← this, he]))
    have h2 := ih (mergeAlternatives p x.1.1 x.1.2 x.2) c
      (fun e he => h e (List.mem_cons_of_mem x he))
    calc getPt (applyMerges p (x :: xs)) c.1 c.2
        = getPt (applyMerges (mergeAlternatives p x.1.1 x.1.2 x.2) xs) c.1 c.2 := rfl
      _ = getPt (mergeAlternatives p x.1.1 x.1.2 x.2) c.1 c.2 := h2
      _ = getPt p c.1 c.2 := h1

/-- Hit property of a merge batch with pairwise-distinct coordinates: each
coordinate of the batch ends up holding its own task's alternatives, with
every other field of the point taken unchanged from the original plan. -/
theorem applyMerges_hit (l : List ((Nat × Nat) × List Json)) :
    ∀ (p : TravelPlan) (c : Nat × Nat) (alts : List Json) (pt : LocationPoint),
      (l.map Prod.fst).Pairwise (· ≠ ·) → (c, alts) ∈ l →
      getPt p c.1 c.2 = some pt →
      getPt (applyMerges p l) c.1 c.2 = some { pt with alternatives := some alts } := by
  induction l with
  | nil => intro p c alts pt hdist hmem hget; simp at hmem
  | cons x xs ih =>
    intro p c alts pt hdist hmem hget
    rw [List.map_cons, List.pairwise_cons] at hdist
    obtain ⟨hhead, htail⟩ := hdist
    have hstep : applyMerges p (x :: xs) = applyMerges (mergeAlternatives p x.1.1 x.1.2 x.2) xs := rfl
    rcases List.mem_cons.mp hmem with he | hxs
    · have hc : x.1 = c := by rw [← he]
      have hca : x.2 = alts := by rw [← he]
      subst hc
      subst hca
      have h1 : getPt (mergeAlternatives p x.1.1 x.1.2 x.2) x.1.1 x.1.2 =
          some { pt with alternatives := some x.2 } :=
        mergeAlternatives_hit p x.1.1 x.1.2 x.2 pt hget
      rw [hstep]
      have h2 : ∀ e ∈ xs, e.1 ≠ x.1 := by
        intro e he'
        exact fun heq => (hhead e.1 (List.mem_map_of_mem Prod.fst he')) heq.symm
      have h3 := applyMerges_frame xs (mergeAlternatives p x.1.1 x.1.2 x.2) x.1 h2
      rw [h3, h1]
    · have hc : x.1 ≠ c := by
        have : c ∈ xs.map Prod.fst := by
          have : c = ((c, alts) : (Nat × Nat) × List Json).1 := rfl
          rw [this]
          exact List.mem_map_of_mem Prod.fst hxs
        exact hhead c this
      have h1 : getPt (mergeAlternatives p x.1.1 x.1.2 x.2) c.1 c.2 = getPt p c.1 c.2 :=
        mergeAlternatives_frame p x.1.1 x.1.2 c.1 c.2 x.2 (by
          intro heq
          exact hc (by
            have hx : (x.1.1, x.1.2) = x.1 := rfl
            rw [← hx, heq]))
      rw [hstep]
      exact ih (mergeAlternatives p x.1.1 x.1.2 x.2) c alts pt htail hxs (by rw [h1, hget])

/-- C8: when enrichment tasks for pairwise-distinct `(day, point)`
coordinates each merge their result through the read-latest-then-write
functional update, then in whatever order the merges are applied, every
coordinate of the batch holds exactly its own task's alternatives list over
an otherwise unchanged point, and every coordinate outside the batch is
untouched — no merge loses another merge's write. -/
theorem c8_merge_race (p : TravelPlan) (l : List ((Nat × Nat) × List Json))
    (hdist : (l.map Prod.fst).Pairwise (· ≠ ·)) :
    (∀ (c : Nat × Nat) (alts : List Json) (pt : LocationPoint),
        (c, alts) ∈ l → getPt p c.1 c.2 = some pt →
        getPt (applyMerges p l) c.1 c.2 = some { pt with alternatives := some alts }) ∧
    (∀ c : Nat × Nat, (∀ e ∈ l, e.1 ≠ c) →
        getPt (applyMerges p l) c.1 c.2 = getPt p c.1 c.2) :=
  ⟨fun c alts pt hmem hget => applyMerges_hit l p c alts pt hdist hmem hget,
   fun c hnone => applyMerges_frame l p c hnone⟩

/-- Witness for `c8_merge_race`: on the concrete two-point plan and the
reversed-order batch, point `(0, 0)` ends with its own task's list. -/
theorem c8_merge_race_witness :
    getPt (applyMerges c8Plan c8Batch) 0 0 =
      some { c1ParkPt with alternatives := some [Json.bool true] } :=
  (c8_merge_race c8Plan c8Batch (by decide)).1 (0, 0) [Json.bool true] c1ParkPt
    (by simp [c8Batch]) (by rfl)

theorem rng_succ (a n : Nat) : List.range' a (n + 1) = a :: List.range' (a + 1) n := rfl

theorem rng_concat (a n : Nat) : List.range' a (n + 1) = List.range' a n ++ [a + n] := by
  induction n generalizing a with
  | zero => simp [List.range']
  | succ n ih =>
    rw [rng_succ, ih (a + 1), rng_succ]
    simp [List.cons_append]
    omega

theorem qinv_addTask (s : QConf) (h : QInv s) : QInv (addTask s) := by
  obtain ⟨a, n, hp, hn, hlen, hforce, hperm⟩ := h
  unfold addTask procOnce
  by_cases hc : maxConcurrent ≤ s.running.length
  · simp only [hc, if_true]
    refine ⟨a, n + 1, ?_, ?_, hlen, ?_, hperm⟩
    · show s.pending ++ [s.nextId] = List.range' a (n + 1)
      rw [hp, hn, rng_concat]
    · show s.nextId + 1 = a + (n + 1)
      omega
    · intro hcon
      show s.running.length = maxConcurrent
      omega
  · have hpe : s.pending = [] := by
      by_contra hne
      have := hforce hne
      omega
    have hn0 : n = 0 := by
      rw [hpe] at hp
      cases n with
      | zero => rfl
      | succ m => rw [rng_succ] at hp; exact List.noConfusion hp
    have hna : s.nextId = a := by omega
    simp only [hc, if_false, hpe, hna, List.nil_append]
    refine ⟨a + 1, 0, rfl, ?_, ?_, ?_, ?_⟩
    · show a + 1 = a + 1 + 0
      omega
    · show (s.running ++ [a]).length ≤ maxConcurrent
      simp only [List.length_append, List.length_singleton]
      omega
    · intro hcon
      exact absurd rfl hcon
    · show ((s.running ++ [a] : List Nat) : Multiset Nat) +
          ((s.finished.map Prod.fst : List Nat) : Multiset Nat) =
          (List.range (a + 1) : Multiset Nat)
      have hco : ((s.running ++ [a] : List Nat) : Multiset Nat) =
          (s.running : Multiset Nat) + (([a] : List Nat) : Multiset Nat) := rfl
      rw [hco, add_right_comm, hperm]
      have hr1 : List.range (a + 1) = List.range a ++ [a] := by
        simpa using List.range_succ a
      rw [hr1]
      rfl

theorem qinv_completeTask (s : QConf) (t : Nat) (ok : Bool)
    (ht : t ∈ s.running) (h : QInv s) : QInv (completeTask s t ok) := by
  obtain ⟨a, n, hp, hn, hlen, hforce, hperm⟩ := h
  have hlen' : (s.running.erase t).length = s.running.length - 1 :=
    List.length_erase_of_mem ht
  have hpos : 0 < s.running.length := List.length_pos_of_mem ht
  have htm : t ∈ (s.running : Multiset Nat) := by exact_mod_cast ht
  have hperm' : ((s.running.erase t : List Nat) : Multiset Nat) +
      (((s.finished ++ [(t, ok)]).map Prod.fst : List Nat) : Multiset Nat) =
      (List.range a : Multiset Nat) := by
    rw [List.map_append]
    have hm : ([(t, ok)].map Prod.fst) = [t] := rfl
    rw [hm]
    have hco : ((s.finished.map Prod.fst ++ [t] : List Nat) : Multiset Nat) =
        ((s.finished.map Prod.fst : List Nat) : Multiset Nat) + (([t] : List Nat) : Multiset Nat) := rfl
    rw [hco, ← Multiset.coe_erase]
    have hsingle : (([t] : List Nat) : Multiset Nat) = ({t} : Multiset Nat) := rfl
    rw [hsingle]
    calc (s.running : Multiset Nat).erase t +
          (((s.finished.map Prod.fst : List Nat) : Multiset Nat) + ({t} : Multiset Nat))
        = (s.running : Multiset Nat).erase t +
          (({t} : Multiset Nat) + ((s.finished.map Prod.fst : List Nat) : Multiset Nat)) := by
          rw [add_comm ({t} : Multiset Nat)]
      _ = ((s.running : Multiset Nat).erase t + ({t} : Multiset Nat)) +
          ((s.finished.map Prod.fst : List Nat) : Multiset Nat) := by rw [add_assoc]
      _ = (s.running : Multiset Nat) +
          ((s.finished.map Prod.fst : List Nat) : Multiset Nat) := by
          rw [add_comm _ ({t} : Multiset Nat), Multiset.singleton_add, Multiset.cons_erase htm]
      _ = (List.range a : Multiset Nat) := hperm
  unfold completeTask procOnce
  cases n with
  | zero =>
    have hpe : s.pending = [] := by rw [hp]; rfl
    by_cases hc : maxConcurrent ≤ (s.running.erase t).length
    · simp only [hc, if_true]
      refine ⟨a, 0, hpe, ?_, ?_, ?_, hperm'⟩
      · show s.nextId = a + 0
        omega
      · show (s.running.erase t).length ≤ maxConcurrent
        omega
      · intro hcon
        exact absurd hpe hcon
    · simp only [hc, if_false, hpe]
      refine ⟨a, 0, rfl, ?_, ?_, ?_, hperm'⟩
      · show s.nextId = a + 0
        omega
      · show (s.running.erase t).length ≤ maxConcurrent
        omega
      · intro hcon
        exact absurd rfl hcon
  | succ n' =>
    have hpc : s.pending = a :: List.range' (a + 1) n' := by rw [hp, rng_succ]
    have hrun2 : s.running.length = maxConcurrent := hforce (by rw [hpc]; simp)
    have hc : ¬ maxConcurrent ≤ (s.running.erase t).length := by
      rw [hlen', hrun2]
      simp [maxConcurrent]
    simp only [hc, if_false, hpc]
    refine ⟨a + 1, n', rfl, ?_, ?_, ?_, ?_⟩
    · show s.nextId = a + 1 + n'
      omega
    · show (s.running.erase t ++ [a]).length ≤ maxConcurrent
      simp only [List.length_append, List.length_singleton]
      omega
    · intro hcon
      show (s.running.erase t ++ [a]).length = maxConcurrent
      simp only [List.length_append, List.length_singleton]
      rw [hlen', hrun2]
      rfl
    · show ((s.running.erase t ++ [a] : List Nat) : Multiset Nat) +
          (((s.finished ++ [(t, ok)]).map Prod.fst : List Nat) : Multiset Nat) =
          (List.range (a + 1) : Multiset Nat)
      have hco : ((s.running.erase t ++ [a] : List Nat) : Multiset Nat) =
          ((s.running.erase t : List Nat) : Multiset Nat) + (([a] : List Nat) : Multiset Nat) := rfl
      rw [hco, add_right_comm, hperm']
      have hr1 : List.range (a + 1) = List.range a ++ [a] := by
        simpa using List.range_succ a
      rw [hr1]
      rfl

theorem qreach_inv (s : QConf) (h : QReachable s) : QInv s := by
  induction h with
  | refl =>
    refine ⟨0, 0, rfl, rfl, by simp [qInit, maxConcurrent], ?_, ?_⟩
    · intro hcon; exact absurd rfl hcon
    · rfl
  | tail hsteps hstep ih =>
    cases hstep with
    | add => exact qinv_addTask _ ih
    | complete t ok ht => exact qinv_completeTask _ t ok ht ih

theorem completeTask_measure (s : QConf) (t : Nat) (ok : Bool) (ht : t ∈ s.running) :
    2 * (completeTask s t ok).pending.length + (completeTask s t ok).running.length <
      2 * s.pending.length + s.running.length := by
  have hl := List.length_erase_of_mem ht
  have hpos : 0 < s.running.length := List.length_pos_of_mem ht
  unfold completeTask procOnce
  by_cases hc : maxConcurrent ≤ (s.running.erase t).length
  · simp only [hc, if_true]
    show 2 * s.pending.length + (s.running.erase t).length <
      2 * s.pending.length + s.running.length
    omega
  · cases hp : s.pending with
    | nil =>
      simp only [hc, if_false, hp]
      show 2 * ([] : List Nat).length + (s.running.erase t).length <
        2 * ([] : List Nat).length + s.running.length
      simp only [List.length_nil]
      omega
    | cons u rest =>
      simp only [hc, if_false, hp]
      show 2 * rest.length + (s.running.erase t ++ [u]).length <
        2 * (u :: rest).length + s.running.length
      simp only [List.length_append, List.length_singleton, List.length_cons, List.length_nil]
      omega

/-- Drain lemma: from any state satisfying the invariant, some sequence of
completion events empties both the waiting queue and the running set. -/
theorem qdrain (s : QConf) (h : QInv s) :
    ∃ s', Relation.ReflTransGen QStep s s' ∧ s'.pending = [] ∧ s'.running = [] ∧ QInv s' := by
  cases hr : s.running with
  | nil =>
    cases hp : s.pending with
    | nil => exact ⟨s, Relation.ReflTransGen.refl, hp, hr, h⟩
    | cons u rest =>
      obtain ⟨a, n, hpq, hn, hlen, hforce, hperm⟩ := h
      have h2 := hforce (by rw [hp]; simp)
      rw [hr] at h2
      simp [maxConcurrent] at h2
  | cons t ts =>
    have ht : t ∈ s.running := by rw [hr]; exact List.mem_cons_self t ts
    have h2 : QInv (completeTask s t true) := qinv_completeTask s t true ht h
    obtain ⟨s', hrtg, h1', h2', h3'⟩ := qdrain (completeTask s t true) h2
    exact ⟨s', Relation.ReflTransGen.trans
      (Relation.ReflTransGen.single (QStep.complete s t true ht)) hrtg, h1', h2', h3'⟩
termination_by 2 * s.pending.length + s.running.length
decreasing_by
  exact completeTask_measure s t true ht

/-- C5: the `RequestQueue` keeps at most `maxConcurrent = 2` tasks running at
any instant; at every reachable state the set of tasks started so far is
exactly the initial segment of the submission order, each exactly once (so
tasks are started in FIFO submission order: a task starts only after every
earlier-submitted one has started); and provided each running task
terminates, completion events drain the queue to an idle state in which every
one of the `nextId` submitted tasks has completed exactly once. -/
theorem c5_queue_bound_fifo_complete (s : QConf) (hs : QReachable s) :
    s.running.length ≤ maxConcurrent ∧
    (∃ a, s.nextId = a + s.pending.length ∧
      (s.running : Multiset Nat) + ((s.finished.map Prod.fst : List Nat) : Multiset Nat) =
        (List.range a : Multiset Nat)) ∧
    (∃ s', Relation.ReflTransGen QStep s s' ∧ s'.pending = [] ∧ s'.running = [] ∧
      ((s'.finished.map Prod.fst : List Nat) : Multiset Nat) =
        (List.range s'.nextId : Multiset Nat)) := by
  obtain ⟨a, n, hp, hn, hlen, hforce, hperm⟩ := qreach_inv s hs
  refine ⟨hlen, ⟨a, ?_, hperm⟩, ?_⟩
  · rw [hp]
    simp only [List.length_range']
    exact hn
  · obtain ⟨s', hrtg, hp', hr', hinv'⟩ := qdrain s (qreach_inv s hs)
    obtain ⟨a', n', hpq', hn', _, _, hperm'⟩ := hinv'
    refine ⟨s', hrtg, hp', hr', ?_⟩
    have hn0 : n' = 0 := by
      cases n' with
      | zero => rfl
      | succ m =>
        rw [hp', rng_succ] at hpq'
        exact List.noConfusion hpq'
    have ha : a' = s'.nextId := by omega
    rw [hr'] at hperm'
    have hz : (([] : List Nat) : Multiset Nat) = 0 := rfl
    rw [hz, zero_add] at hperm'
    rw [hperm', ha]

/-- Witness for `c5_queue_bound_fifo_complete` at the state reached by a
single submission. -/
theorem c5_queue_bound_fifo_complete_witness :
    (addTask qInit).running.length ≤ maxConcurrent ∧
    (∃ a, (addTask qInit).nextId = a + (addTask qInit).pending.length ∧
      ((addTask qInit).running : Multiset Nat) +
        (((addTask qInit).finished.map Prod.fst : List Nat) : Multiset Nat) =
        (List.range a : Multiset Nat)) ∧
    (∃ s', Relation.ReflTransGen QStep (addTask qInit) s' ∧ s'.pending = [] ∧ s'.running = [] ∧
      ((s'.finished.map Prod.fst : List Nat) : Multiset Nat) =
        (List.range s'.nextId : Multiset Nat)) :=
  c5_queue_bound_fifo_complete (addTask qInit)
    (Relation.ReflTransGen.single (QStep.add qInit))

/-- C6: a task that throws is caught inside the drain loop — the completion
event with outcome `false` produces exactly the same waiting queue, running
set, submission counter and completed-task ids as a successful completion,
so the failure reaches no submitter and alters no bookkeeping; and when
tasks are waiting, the failing completion still dequeues the head task and
starts it, so draining resumes. -/
theorem c6_failure_isolated (s : QConf) (t : Nat) (ht : t ∈ s.running) (hInv : QInv s) :
    ((completeTask s t false).pending = (completeTask s t true).pending ∧
     (completeTask s t false).running = (completeTask s t true).running ∧
     (completeTask s t false).nextId = (completeTask s t true).nextId ∧
     (completeTask s t false).finished.map Prod.fst =
       (completeTask s t true).finished.map Prod.fst) ∧
    (s.pending ≠ [] → ∃ u rest, s.pending = u :: rest ∧
      (completeTask s t false).pending = rest ∧
      u ∈ (completeTask s t false).running) := by
  constructor
  · unfold completeTask procOnce
    by_cases hc : maxConcurrent ≤ (s.running.erase t).length
    · simp [hc]
    · cases hp : s.pending with
      | nil => simp [hc, hp]
      | cons u rest => simp [hc, hp]
  · intro hne
    obtain ⟨a, n, hp, hn, hlen, hforce, hperm⟩ := hInv
    have hrun2 : s.running.length = maxConcurrent := hforce hne
    have hlen' : (s.running.erase t).length = s.running.length - 1 :=
      List.length_erase_of_mem ht
    have hc : ¬ maxConcurrent ≤ (s.running.erase t).length := by
      rw [hlen', hrun2]
      simp [maxConcurrent]
    cases hpc : s.pending with
    | nil => exact absurd hpc hne
    | cons u rest =>
      refine ⟨u, rest, rfl, ?_, ?_⟩
      · unfold completeTask procOnce
        simp only [hc, if_false, hpc]
      · unfold completeTask procOnce
        simp only [hc, if_false, hpc]
        show u ∈ s.running.erase t ++ [u]
        simp

theorem fenceScan_none (t : List Char) (h : hasFence t = false) : fenceScan t = none := by
  induction t with
  | nil => rfl
  | cons c r ih =>
    unfold hasFence at h
    rw [Bool.or_eq_false_iff] at h
    unfold fenceScan
    rw [if_neg (by simp [h.1])]
    exact ih h.2

theorem stripCore_id_of_guarded (t : List Char) :
    ∀ pc : Bool, colonGuarded pc t = true → stripCore pc false t = t := by
  induction t with
  | nil => intro pc h; rfl
  | cons c r ih =>
    intro pc h
    unfold colonGuarded at h
    unfold stripCore
    by_cases hcond : (c == '/' && headSlash r && !pc) = true
    · rw [if_pos hcond] at h
      exact absurd h (by simp)
    · rw [if_neg hcond] at h
      simp only [Bool.false_eq_true, if_false]
      rw [if_neg hcond]
      rw [ih (c == ':') h]

theorem locateOpen_id_of_headOpen (t : List Char) (h : headIsOpen t = true) :
    locateOpen t = t := by
  cases t with
  | nil => simp [headIsOpen] at h
  | cons c r =>
    simp only [headIsOpen] at h
    unfold locateOpen
    rw [if_pos (by simp [List.any_cons, h])]
    simp [List.dropWhile_cons, h]

/-- Identity of the comment-removal step on colon-guarded input. -/
theorem stripLineComments_id_of_guarded (t : List Char) (h : colonGuarded false t = true) :
    stripLineComments t = t :=
  stripCore_id_of_guarded t false h

/-- C3, counterexample: on the valid document `{"u": "x //y"}` — whose `//`
sits inside a quoted string value — the comment-removal step deletes from the
`//` to the end of the line, because the replacement regex has no notion of
string state; the `//` inside the string is not preserved. -/
theorem c3_counterexample :
    jsonParse c3Input = some (Json.obj [("u".toList, Json.str ("x //y".toList))]) ∧
      stripLineComments c3Input = ("\x7b\"u\": \"x ".toList) ∧
      stripLineComments c3Input ≠ c3Input := by
  refine ⟨rfl, rfl, by decide⟩

/-- C3, amended: the comment-removal step does not track string or escape
state at all; what it preserves is exactly a `//` immediately preceded by a
colon (the URL guard `[^:]`).  For every input in which each `//` is directly
preceded by `:`, the step is the identity — in particular on `http://`
URLs inside string values — while any other `//`, inside a string or not,
starts a deleted comment. -/
theorem c3_comment_colon_guard (t : List Char) (h : colonGuarded false t = true) :
    stripLineComments t = t :=
  stripLineComments_id_of_guarded t h

/-- Witness for `c3_comment_colon_guard`: a URL inside a string value
survives comment removal. -/
theorem c3_comment_colon_guard_witness :
    stripLineComments c3UrlInput = c3UrlInput :=
  c3_comment_colon_guard c3UrlInput (by decide)

/-- C2, counterexample: `{"a":"b//c"}` is valid JSON (the direct decode
succeeds), yet `extractJson` returns a different value — the comment-removal
step truncates the string value at the `//`, the direct parse of the mangled
text fails, and the repair closes the string early, yielding `{"a":"b"}`. -/
theorem c2_counterexample :
    (jsonParse c2Input).isSome = true ∧ extractJson c2Input ≠ jsonParse c2Input := by
  refine ⟨rfl, ?_⟩
  intro hEq
  have h1 : extractJson c2Input = some (Json.obj [("a".toList, Json.str ("b".toList))]) := rfl
  have h2 : jsonParse c2Input = some (Json.obj [("a".toList, Json.str ("b//c".toList))]) := rfl
  rw [h1, h2] at hEq
  have h3 := congrArg firstFieldStr (Option.some.inj hEq)
  exact absurd h3 (by decide)

/-- C2, amended: the cleaning steps are not no-ops on all well-formed input
(the counterexample shows the comment regex mangling a valid document), but
on every valid JSON text that is already trimmed, contains no triple-backtick
fence and no `//` other than directly after a colon, and starts with `{` or
`[`, `extractJson` returns exactly the plain decode. -/
theorem c2_direct_parse (t : List Char) (v : Json)
    (htrim : jsTrim t = t) (hfence : hasFence t = false)
    (hcom : colonGuarded false t = true) (hopen : headIsOpen t = true)
    (hparse : jsonParse t = some v) :
    extractJson t = some v := by
  unfold extractJson
  simp only [htrim, fenceScan_none t hfence]
  show (match jsonParse (locateOpen (stripLineComments t)) with
    | some v => some v
    | none => _) = some v
  rw [stripLineComments_id_of_guarded t hcom, locateOpen_id_of_headOpen t hopen, hparse]

/-- Witness for `c2_direct_parse` on the well-formed document `{"k":1}`. -/
theorem c2_direct_parse_witness :
    extractJson c2WitInput = some (Json.obj [("k".toList, Json.num 1 0)]) :=
  c2_direct_parse c2WitInput (Json.obj [("k".toList, Json.num 1 0)])
    (by decide) (by decide) (by decide) (by decide) rfl

/-- C4, counterexample: `{"a":1}` is a valid document, and truncating it to
`{"a"` cuts inside the object — after a complete key string, not inside a
string and not mid-escape (the repair scan ends with `inString = false` and
one pending closer) — yet `extractJson` fails: the repair appends `}` to
produce `{"a"}`, which does not parse, so no successful parse is yielded. -/
theorem c4_counterexample :
    (jsonParse c4Doc).isSome = true ∧
      (repairScan (c4Doc.take 4)).inString = false ∧
      (repairScan (c4Doc.take 4)).stack = ['}'] ∧
      extractJson (c4Doc.take 4) = none := by
  refine ⟨rfl, rfl, rfl, rfl⟩

/-- C4, amended: the repair pass is not total over all truncation points of
a valid document — cutting after an object key, after a colon, inside an
object key, or inside a number or keyword can leave text that still fails to
parse after closer insertion, as the counterexample shows.  What holds is the
string-value case: for the nested representative document, every truncation
point lying strictly inside a string **value** (not an object key, not
immediately after a backslash) yields a successful repaired parse, with the
open string closed first and the pending closers appended innermost-first. -/
theorem c4_truncation_repair :
    (jsonParse c4NestedDoc).isSome = true ∧
      ∀ k, k ≤ c4NestedDoc.length → strValueCut c4NestedDoc k = true →
        (extractJson (c4NestedDoc.take k)).isSome = true := by
  refine ⟨rfl, ?_⟩
  decide

/-- Witness for `c4_truncation_repair` at the cut inside the string value
`"ab"` (seven characters kept). -/
theorem c4_truncation_repair_witness :
    (extractJson (c4NestedDoc.take 7)).isSome = true :=
  c4_truncation_repair.2 7 (by decide) (by decide)

/-- Witness for `c6_failure_isolated` at the state with tasks 0 and 1 running
and task 2 waiting: the failing completion of task 0 matches the successful
one and starts task 2. -/
theorem c6_failure_isolated_witness :
    (((completeTask c6State 0 false).pending = (completeTask c6State 0 true).pending ∧
      (completeTask c6State 0 false).running = (completeTask c6State 0 true).running ∧
      (completeTask c6State 0 false).nextId = (completeTask c6State 0 true).nextId ∧
      (completeTask c6State 0 false).finished.map Prod.fst =
        (completeTask c6State 0 true).finished.map Prod.fst) ∧
     (c6State.pending ≠ [] → ∃ u rest, c6State.pending = u :: rest ∧
       (completeTask c6State 0 false).pending = rest ∧
       u ∈ (completeTask c6State 0 false).running)) :=
  c6_failure_isolated c6State 0 (by decide)
    ⟨2, 1, rfl, rfl, by decide, fun _ => rfl, by decide⟩
